import Mathlib

/-!
Verification development for the SEC filing analysis backend core:
the sentence/word chunker and sliding-window rate limiter
(`controllers/rate_limiter.py`), the token-slice chunker and section
extractor (`controllers/analysis.py`), and the 10-K analysis dispatcher
(`controllers/document_analyzer.py`).

Machine integers are modelled as `Nat`/`Int` (Python integers are
arbitrary precision, so no wraparound modelling is needed).  Timestamps
(`datetime.now()`) are modelled as `Int` seconds.  The external
tokenizer (`tiktoken`) is modelled as an opaque parameter
`cnt : String -> Nat` (for `count_tokens`, which is
`len(encoding.encode(text))`) respectively `enc : String -> List Nat` /
`dec : List Nat -> String` (for `encode`/`decode` in
`split_into_token_chunks`); the spec fixes nothing about the tokenizer
beyond determinism.

Python string primitives (`str.split(sep)`, `str.split()`, `str.join`,
`str.upper`) are given structurally recursive Lean translations over
`String.data` so that all definitions evaluate by kernel reduction.
-/

namespace SecAI

/-- Python `sep.join(parts)`. -/
def pyJoin (sep : String) : List String → String
  | [] => ""
  | [x] => x
  | x :: y :: ys => x ++ sep ++ pyJoin sep (y :: ys)

/-- Helper for `pyWords`: groups maximal runs of non-whitespace characters,
carrying the current partial word in `acc`. -/
def pyWordsAux : List Char → List Char → List (List Char)
  | [], acc => if acc = [] then [] else [acc]
  | c :: cs, acc =>
    if c.isWhitespace then
      (if acc = [] then [] else [acc]) ++ pyWordsAux cs []
    else
      pyWordsAux cs (acc ++ [c])

/-- Python `s.split()`: split on runs of whitespace, discarding empty pieces. -/
def pyWords (s : String) : List String :=
  (pyWordsAux s.data []).map String.mk

/-- Helper for `pySplitStr`: Python `s.split(sep)` over character lists,
fuel-indexed so that it is structurally recursive (fuel is the length of
the remaining input, which bounds the number of steps). -/
def pySplitSepAux (sep : List Char) : Nat → List Char → List (List Char)
  | _, [] => [[]]
  | 0, l => [l]
  | fuel + 1, c :: cs =>
    if sep.isPrefixOf (c :: cs) then
      [] :: pySplitSepAux sep fuel ((c :: cs).drop sep.length)
    else
      match pySplitSepAux sep fuel cs with
      | [] => [[c]]
      | t :: ts => (c :: t) :: ts

/-- Python `s.split(sep)` for a non-empty literal separator: leftmost,
non-overlapping matches; `"".split(sep) == [""]`. -/
def pySplitStr (sep : String) (s : String) : List String :=
  (pySplitSepAux sep.data s.data.length s.data).map String.mk

/-- Python `" " * n` (the synthetic probe string built by `wait_if_needed`). -/
def spaces (n : Nat) : String :=
  String.mk (List.replicate n ' ')

/-- Python `s.upper()` (ASCII), as used for the group headers. -/
def upperStr (s : String) : String :=
  String.mk (s.data.map Char.toUpper)

/-- Lower-case a character list (ASCII), for the case-insensitive regexes. -/
def lowerChars (l : List Char) : List Char :=
  l.map Char.toLower

/-- `clean_content` from `controllers/analysis.py`:
`' '.join(content_list)` followed by `re.sub(r'\s+', ' ', ...).strip()`.
Collapsing whitespace runs to single spaces and stripping both ends is
the same as re-joining the whitespace-split words with single spaces. -/
def cleanContent (l : List String) : String :=
  pyJoin " " (pyWords (pyJoin " " l))

/-! ## RateLimiter (`controllers/rate_limiter.py`) -/

/-- The constructor attributes of `RateLimiter.__init__`. -/
structure RLConfig where
  tokensPerMinute : Nat
  maxTokensPerRequest : Nat
  reservedTokens : Nat
deriving DecidableEq, Repr

/-- `RateLimiter.__init__`: `reserved_tokens` is hard-coded to 1000;
the Python defaults are `tokens_per_minute=5000`,
`max_tokens_per_request=2000`. -/
def mkRateLimiter (tokensPerMinute maxTokensPerRequest : Nat) : RLConfig :=
  ⟨tokensPerMinute, maxTokensPerRequest, 1000⟩

/-- The request-size budget `max_tokens_per_request - reserved_tokens`
(Python integer subtraction, which may be negative). -/
def budget (cfg : RLConfig) : Int :=
  (cfg.maxTokensPerRequest : Int) - (cfg.reservedTokens : Int)

/-- One entry of `self.token_usage`: `{'timestamp': ..., 'tokens': ...}`. -/
structure UsageRecord where
  timestamp : Int
  tokens : Int
deriving DecidableEq, Repr

/-- The mutable state of a `RateLimiter` instance. -/
structure RLState where
  tokenUsage : List UsageRecord
  lastRequestTime : Int
deriving DecidableEq, Repr

/-- `get_available_tokens`: prune records older than one minute (a side
effect kept in the returned state), sum the remaining token counts and
return `max(0, tokens_per_minute - used)`. -/
def getAvailableTokens (cfg : RLConfig) (st : RLState) (now : Int) :
    Int × RLState :=
  let pruned := st.tokenUsage.filter (fun u => u.timestamp > now - 60)
  let used := (pruned.map (fun u => u.tokens)).sum
  (max 0 ((cfg.tokensPerMinute : Int) - used), ⟨pruned, st.lastRequestTime⟩)

/-- `can_make_request`: `tokens <= (max_tokens_per_request - reserved_tokens)
and tokens <= self.get_available_tokens()`.  Python `and` short-circuits,
so the pruning side effect of `get_available_tokens` happens only when the
first conjunct holds. -/
def canMakeRequest (cfg : RLConfig) (cnt : String → Nat) (st : RLState)
    (now : Int) (text : String) : Bool × RLState :=
  let tokens := cnt text
  if (tokens : Int) ≤ budget cfg then
    let a := getAvailableTokens cfg st now
    (decide ((tokens : Int) ≤ a.1), a.2)
  else
    (false, st)

/-- `record_token_usage`: append a record at the current time and update
`last_request_time`. -/
def recordTokenUsage (st : RLState) (now : Int) (tokens : Int) : RLState :=
  ⟨st.tokenUsage ++ [⟨now, tokens⟩], now⟩

/-- `wait_if_needed`, fuel-indexed: loop while
`not can_make_request(" " * required_tokens)`, sleeping
`1 - time_since_last_request` seconds when that is positive and 1 second
otherwise (modelled by advancing `now`).  `none` means the fuel ran out
without admission ever succeeding; the source loop has no timeout. -/
def waitIfNeeded (cfg : RLConfig) (cnt : String → Nat) (required : Nat) :
    Nat → RLState → Int → Option (RLState × Int)
  | 0, _, _ => none
  | fuel + 1, st, now =>
    let r := canMakeRequest cfg cnt st now (spaces required)
    if r.1 then
      some (r.2, now)
    else
      let sinceLast := now - r.2.lastRequestTime
      let sleep := if sinceLast < 1 then 1 - sinceLast else 1
      waitIfNeeded cfg cnt required fuel r.2 (now + sleep)

/-- Sum of recorded tokens whose timestamps lie in the trailing 60-second
window ending at `now`. -/
def windowSum (st : RLState) (now : Int) : Int :=
  ((st.tokenUsage.filter (fun u => u.timestamp > now - 60)).map
    (fun u => u.tokens)).sum

/-- One chunk dispatch as performed by `document_analyzer.py`:
`rate_limiter.wait_if_needed(rate_limiter.count_tokens(chunk))` followed by
`groq_analysis`, which records
`count_tokens(text) + count_tokens(system_prompt)`.  This models the
immediately-admitted case (the successful exit of the wait loop). -/
def dispatchChunk (cfg : RLConfig) (cnt : String → Nat) (st : RLState)
    (now : Int) (chunk prompt : String) : Option RLState :=
  let required := cnt chunk
  let r := canMakeRequest cfg cnt st now (spaces required)
  if r.1 then
    some (recordTokenUsage r.2 now ((cnt chunk + cnt prompt : Nat) : Int))
  else
    none

/-! ## Chunker (`RateLimiter.split_text_into_chunks`) -/

/-- The inner word loop of `split_text_into_chunks` (run when a single
sentence exceeds the budget): accumulate words while the running sum of
word token counts stays within the budget; on overflow flush the current
word group.  Returns the word groups in emission order. -/
def wordChunks (B : Int) (cnt : String → Nat) :
    List String → List String → Nat → List (List String)
  | [], cur, _ => if cur = [] then [] else [cur]
  | w :: ws, cur, curTok =>
    let wt := cnt w
    if ((curTok + wt : Nat) : Int) > B then
      (if cur = [] then [] else [cur]) ++ wordChunks B cnt ws [w] wt
    else
      wordChunks B cnt ws (cur ++ [w]) (curTok + wt)

/-- The outer sentence loop of `split_text_into_chunks`: an oversized
sentence is word-split and its word chunks are appended to the output
immediately (`continue`), leaving the pending sentence buffer in place;
otherwise sentences accumulate while the running sum of sentence token
counts stays within the budget, flushed as `'. '.join(chunk) + '.'`. -/
def sentenceLoop (B : Int) (cnt : String → Nat) :
    List String → List String → Nat → List String
  | [], cur, _ => if cur = [] then [] else [pyJoin ". " cur ++ "."]
  | s :: ss, cur, curTok =>
    let st := cnt s
    if (st : Int) > B then
      ((wordChunks B cnt (pyWords s) [] 0).map (pyJoin " "))
        ++ sentenceLoop B cnt ss cur curTok
    else if ((curTok + st : Nat) : Int) > B then
      (if cur = [] then [] else [pyJoin ". " cur ++ "."])
        ++ sentenceLoop B cnt ss [s] st
    else
      sentenceLoop B cnt ss (cur ++ [s]) (curTok + st)

/-- `split_text_into_chunks`: split on the literal `'. '`, then run the
sentence loop with an empty initial buffer. -/
def splitTextIntoChunks (cfg : RLConfig) (cnt : String → Nat)
    (text : String) : List String :=
  sentenceLoop (budget cfg) cnt (pySplitStr ". " text) [] 0

/-- The word sequence of a text under the chunker's own separators:
split on `'. '` between sentences, then on whitespace between words
(claim-side notion used to state the reconstruction property). -/
def wordsOfText (s : String) : List String :=
  (pySplitStr ". " s).flatMap pyWords

/-! ## Token-slice chunker (`analysis.py`, `split_into_token_chunks`) -/

/-- Helper for `chunkTokens`: the slices `tokens[i : i + maxTokens]` for
`i in range(0, len(tokens), maxTokens)`, fuel-indexed so that it is
structurally recursive.  With `maxTokens = 0` the Python `range` raises
`ValueError`; here the fuel simply runs out (the claims assume
`maxTokens > 0`). -/
def chunkTokensAux (m : Nat) : Nat → List Nat → List (List Nat)
  | _, [] => []
  | 0, _ => []
  | fuel + 1, l@(_ :: _) => l.take m :: chunkTokensAux m fuel (l.drop m)

/-- The successive slices of at most `m` tokens taken by
`split_into_token_chunks`. -/
def chunkTokens (m : Nat) (l : List Nat) : List (List Nat) :=
  chunkTokensAux m l.length l

/-- `split_into_token_chunks(text, max_tokens)`:
`[enc.decode(tokens[i : i + max_tokens]) for i in range(0, len(tokens), max_tokens)]`
with `tokens = enc.encode(text)`.  `enc`/`dec` model the tiktoken encoder. -/
def splitIntoTokenChunks (enc : String → List Nat) (dec : List Nat → String)
    (text : String) (maxTokens : Nat) : List String :=
  (chunkTokens maxTokens (enc text)).map dec

/-! ## SectionExtractor (`analysis.py`, `parse_sec_document`) -/

/-- The compiled pattern `^\s*{re.escape(sec)}(?=\s|$)` with
`re.IGNORECASE`, applied via `pat.match(text)`: optional leading
whitespace, then the label literally (case-insensitively), followed by a
whitespace character or the end of the string. -/
def labelMatch (sec t : String) : Bool :=
  let t0 := lowerChars (t.data.dropWhile Char.isWhitespace)
  let s0 := lowerChars sec.data
  s0.isPrefixOf t0 &&
    (match t0.drop s0.length with
     | [] => true
     | c :: _ => c.isWhitespace)

/-- `next((sec for sec, pat in patterns.items() if pat.match(text)), None)`:
the first configured label whose pattern matches. -/
def firstHit (labels : List String) (t : String) : Option String :=
  labels.find? (fun sec => labelMatch sec t)

/-- The sibling look-ahead: walk the header node's following sibling tags,
absorbing each sibling's text until one matches any label pattern (that
sibling is not consumed). -/
def absorbSiblings (labels : List String) : List String → List String
  | [] => []
  | s :: ss =>
    if labels.any (fun sec => labelMatch sec s) then []
    else s :: absorbSiblings labels ss

/-- One text node of the parsed markup, as consumed by the extractor's
walk: whether its parent is a tag element, its stripped text, and the
stripped texts of the following sibling tag elements of its parent. -/
structure SeNode where
  parentIsTag : Bool
  text : String
  siblingTexts : List String

/-- The main walk of `parse_sec_document` over the document's text nodes.
`cur` is the Python `current` variable with `""` standing for both
`None` and the empty string (Python tests it by truthiness, so the two
are indistinguishable there); `store` is the `raw_texts` value map. -/
def walk (labels : List String) :
    List SeNode → String → List String → (String → String) →
    (String → String)
  | [], cur, buffer, store =>
    if cur ≠ "" ∧ buffer ≠ [] then
      fun x => if x = cur then cleanContent buffer else store x
    else store
  | n :: ns, cur, buffer, store =>
    if n.parentIsTag then
      match firstHit labels n.text with
      | some hit =>
        let store1 := if cur ≠ "" then
            (fun x => if x = cur then cleanContent buffer else store x)
          else store
        let buffer1 := (if cur ≠ "" then [] else buffer) ++ [n.text]
            ++ absorbSiblings labels n.siblingTexts
        walk labels ns hit buffer1 store1
      | none =>
        if cur ≠ "" then walk labels ns cur (buffer ++ [n.text]) store
        else walk labels ns cur buffer store
    else
      walk labels ns cur buffer store

/-- Helper for `pyDedup`: keep each element's first occurrence, tracking
the keys already seen. -/
def pyDedupAux : List String → List String → List String
  | [], _ => []
  | x :: xs, seen =>
    if x ∈ seen then pyDedupAux xs seen
    else x :: pyDedupAux xs (seen ++ [x])

/-- The key list of `OrderedDict((sec, "") for sec in sections_to_extract)`:
declaration order with later duplicates dropped. -/
def pyDedup (l : List String) : List String :=
  pyDedupAux l []

/-- `parse_sec_document(html, sections_to_extract, max_tokens=1000)` over
the abstract node stream: run the walk from an empty state, then emit,
per configured label in declared order, `["not found"]` when no text
accumulated and the token chunks of the cleaned text otherwise. -/
def parseSecDocument (enc : String → List Nat) (dec : List Nat → String)
    (nodes : List SeNode) (sectionsToExtract : List String) :
    List (String × List String) :=
  let store := walk sectionsToExtract nodes "" [] (fun _ => "")
  (pyDedup sectionsToExtract).map (fun sec =>
    (sec, if store sec = "" then ["not found"]
          else splitIntoTokenChunks enc dec (store sec) 1000))

/-! ## AnalysisDispatcher (`document_analyzer.py`, `analyze_10k`) -/

/-- Python `sections[key]` with the `if key in sections` guard:
first-match lookup in the section mapping. -/
def dictGet (d : List (String × List String)) (k : String) :
    Option (List String) :=
  (d.find? (fun p => p.1 == k)).map (fun p => p.2)

/-- The `section_groups` table of `analyze_10k`, in declaration order. -/
def sectionGroups10K : List (String × List String) :=
  [("business_overview", ["Item 1.", "Item 1A.", "Item 1B.", "Item 1C."]),
   ("financial_metrics", ["Item 6.", "Item 7.", "Item 7A."]),
   ("risk_factors", ["Item 1A."]),
   ("management_discussion", ["Item 7."])]

/-- `analyze_10k(sections)`: for each group in order, gather the chunks of
its member sections (`if key in sections: group_content.extend(...)`);
when `group_content` is non-empty, join it with spaces, chunk it with
`split_text_into_chunks`, analyze each chunk, and emit
`f"{group_name.upper()} ANALYSIS:"`, the chunk analyses and a blank line.
Returns the analysis list together with the list of chunk texts submitted
to the completion service (the `groq_analysis` calls, in order); the
rate-limiter waits do not affect either list.  `complete text sysPrompt`
models `groq_analysis(text, system_prompt)` and `prompts g` models
`get_section_prompt("10-K", g)`. -/
def analyze10k (cfg : RLConfig) (cnt : String → Nat)
    (complete : String → String → String) (prompts : String → String)
    (sections : List (String × List String)) : List String × List String :=
  sectionGroups10K.foldl (fun acc g =>
    let content := g.2.foldl
      (fun l k => l ++ ((dictGet sections k).getD [])) []
    if content = [] then acc
    else
      let combined := pyJoin " " content
      let chunks := splitTextIntoChunks cfg cnt combined
      let chunkAnalyses := chunks.map (fun ch => complete ch (prompts g.1))
      (acc.1 ++ [upperStr g.1 ++ " ANALYSIS:"] ++ chunkAnalyses ++ [""],
       acc.2 ++ chunks))
    ([], [])

/-! ## Helper lemmas -/

theorem spaces_length (n : Nat) : (spaces n).length = n := by
  simp [spaces]

theorem chunkTokensAux_len_le (m : Nat) :
    ∀ fuel l, ∀ c ∈ chunkTokensAux m fuel l, c.length ≤ m := by
  intro fuel
  induction fuel with
  | zero =>
    intro l c hc
    cases l <;> simp [chunkTokensAux] at hc
  | succ fuel ih =>
    intro l c hc
    cases l with
    | nil => simp [chunkTokensAux] at hc
    | cons x xs =>
      simp only [chunkTokensAux, List.mem_cons] at hc
      rcases hc with h | h
      · subst h
        simp
      · exact ih _ _ h

theorem chunkTokensAux_flatten (m : Nat) (hm : 0 < m) :
    ∀ fuel l, l.length ≤ fuel → (chunkTokensAux m fuel l).flatten = l := by
  intro fuel
  induction fuel with
  | zero =>
    intro l hl
    have : l = [] := List.length_eq_zero.mp (Nat.le_zero.mp hl)
    subst this
    simp [chunkTokensAux]
  | succ fuel ih =>
    intro l hl
    cases l with
    | nil => simp [chunkTokensAux]
    | cons x xs =>
      have hdrop : ((x :: xs).drop m).length ≤ fuel := by
        rw [List.length_drop]
        simp only [List.length_cons] at hl ⊢
        omega
      simp only [chunkTokensAux, List.flatten_cons, ih _ hdrop,
        List.take_append_drop]

/-- Claim C9 (implicit): for `max_tokens > 0`, `split_into_token_chunks`
returns the decodings of consecutive slices of at most `max_tokens`
tokens, and those slices concatenate back to the token encoding of the
whole input: a lossless token-level partition. -/
theorem c9_token_chunks (enc : String → List Nat) (dec : List Nat → String)
    (text : String) (maxTokens : Nat) (hm : 0 < maxTokens) :
    splitIntoTokenChunks enc dec text maxTokens
        = (chunkTokens maxTokens (enc text)).map dec ∧
      (∀ c ∈ chunkTokens maxTokens (enc text), c.length ≤ maxTokens) ∧
      (chunkTokens maxTokens (enc text)).flatten = enc text := by
  refine ⟨rfl, ?_, ?_⟩
  · exact chunkTokensAux_len_le maxTokens _ _
  · exact chunkTokensAux_flatten maxTokens hm _ _ (Nat.le_refl _)

/-- Witness for C9: a concrete five-token input sliced with budget 2. -/
theorem c9_token_chunks_witness :
    0 < 2 ∧
      (splitIntoTokenChunks (fun s => s.data.map Char.toNat)
          (fun l => String.mk (l.map Char.ofNat)) "abcde" 2
          = (chunkTokens 2 ((fun (s : String) => s.data.map Char.toNat)
              "abcde")).map (fun l => String.mk (l.map Char.ofNat)) ∧
        (∀ c ∈ chunkTokens 2 ((fun (s : String) => s.data.map Char.toNat)
            "abcde"), c.length ≤ 2) ∧
        (chunkTokens 2 ((fun (s : String) => s.data.map Char.toNat)
            "abcde")).flatten
          = (fun (s : String) => s.data.map Char.toNat) "abcde") :=
  ⟨by decide,
   c9_token_chunks (fun s => s.data.map Char.toNat)
     (fun l => String.mk (l.map Char.ofNat)) "abcde" 2 (by decide)⟩

/-- Claim C10 (implicit): assuming every recorded token count is
nonnegative, `get_available_tokens` returns a value between 0 and
`tokens_per_minute`, and after the call every record remaining in the
ledger lies strictly inside the trailing 60-second window. -/
theorem c10_available_tokens (cfg : RLConfig) (st : RLState) (now : Int)
    (h : ∀ u ∈ st.tokenUsage, 0 ≤ u.tokens) :
    0 ≤ (getAvailableTokens cfg st now).1 ∧
      (getAvailableTokens cfg st now).1 ≤ (cfg.tokensPerMinute : Int) ∧
      ∀ u ∈ (getAvailableTokens cfg st now).2.tokenUsage,
        now - 60 < u.timestamp := by
  refine ⟨le_max_left _ _, ?_, ?_⟩
  · have hused : 0 ≤ ((st.tokenUsage.filter
        (fun u => u.timestamp > now - 60)).map (fun u => u.tokens)).sum := by
      apply List.sum_nonneg
      intro x hx
      rcases List.mem_map.mp hx with ⟨u, hu, rfl⟩
      exact h u (List.mem_of_mem_filter hu)
    have h0 : (0 : Int) ≤ (cfg.tokensPerMinute : Int) := Int.natCast_nonneg _
    simp only [getAvailableTokens]
    omega
  · intro u hu
    simp only [getAvailableTokens, List.mem_filter] at hu
    simpa using hu.2

/-- Witness for C10: a two-record ledger (one stale, one fresh) with
nonnegative token counts. -/
theorem c10_available_tokens_witness :
    (∀ u ∈ (RLState.mk [⟨0, 3500⟩, ⟨70, 2900⟩] 70).tokenUsage,
        0 ≤ u.tokens) ∧
      (0 ≤ (getAvailableTokens (mkRateLimiter 6000 4000)
          ⟨[⟨0, 3500⟩, ⟨70, 2900⟩], 70⟩ 100).1 ∧
        (getAvailableTokens (mkRateLimiter 6000 4000)
            ⟨[⟨0, 3500⟩, ⟨70, 2900⟩], 70⟩ 100).1
          ≤ ((mkRateLimiter 6000 4000).tokensPerMinute : Int) ∧
        ∀ u ∈ (getAvailableTokens (mkRateLimiter 6000 4000)
            ⟨[⟨0, 3500⟩, ⟨70, 2900⟩], 70⟩ 100).2.tokenUsage,
          (100 : Int) - 60 < u.timestamp) :=
  ⟨by decide,
   c10_available_tokens (mkRateLimiter 6000 4000)
     ⟨[⟨0, 3500⟩, ⟨70, 2900⟩], 70⟩ 100 (by decide)⟩

/-- Claim C7, counterexample: on the zero-length input the chunker does
not return the empty sequence (it returns `["."]`, because
`"".split('. ')` is `[""]` and the final flush emits
`'. '.join([""]) + '.'`). -/
theorem c7_counterexample :
    splitTextIntoChunks (mkRateLimiter 6000 4000) String.length "" ≠ [] := by
  decide

/-- Claim C7, amended: the chunker is total on strings, and the
zero-length input yields the single-element sequence `["."]` (not the
empty sequence) whenever the empty string's token count is within the
budget. -/
theorem c7_amended (cfg : RLConfig) (cnt : String → Nat)
    (h : (cnt "" : Int) ≤ budget cfg) :
    splitTextIntoChunks cfg cnt "" = ["."] := by
  have h1 : ¬((cnt "" : Int) > budget cfg) := not_lt.mpr h
  have h2 : ¬(((0 + cnt "" : Nat) : Int) > budget cfg) := by
    simpa using h1
  have hsplit : pySplitStr ". " "" = [""] := rfl
  simp [splitTextIntoChunks, hsplit, sentenceLoop, h1, h2, pyJoin]

/-- Witness for the amended C7 at the limiter configuration instantiated
by `document_analyzer.py`. -/
theorem c7_amended_witness :
    ((String.length "" : Int) ≤ budget (mkRateLimiter 6000 4000)) ∧
      splitTextIntoChunks (mkRateLimiter 6000 4000) String.length ""
        = ["."] :=
  ⟨by decide, c7_amended (mkRateLimiter 6000 4000) String.length (by decide)⟩

theorem canMakeRequest_post (cfg : RLConfig) (cnt : String → Nat)
    (st : RLState) (now : Int) (text : String)
    (h : (canMakeRequest cfg cnt st now text).1 = true) :
    (canMakeRequest cfg cnt (canMakeRequest cfg cnt st now text).2 now
      text).1 = true := by
  by_cases hb : (cnt text : Int) ≤ budget cfg
  · simp only [canMakeRequest, if_pos hb, getAvailableTokens,
      decide_eq_true_eq] at h ⊢
    simpa [List.filter_filter] using h
  · simp [canMakeRequest, hb] at h

/-- Claim C8: when the synthetic probe's token cost exceeds
`max_tokens_per_request - reserved_tokens`, `wait_if_needed` never
terminates (no amount of loop iterations, i.e. fuel, makes it return);
and whenever it does return, admission for the probe holds on the state
and at the time of return. -/
theorem c8_wait_if_needed (cfg : RLConfig) (cnt : String → Nat)
    (required : Nat) :
    ((cnt (spaces required) : Int) > budget cfg →
      ∀ fuel st now, waitIfNeeded cfg cnt required fuel st now = none) ∧
    (∀ fuel st now out, waitIfNeeded cfg cnt required fuel st now = some out →
      (canMakeRequest cfg cnt out.1 out.2 (spaces required)).1 = true) := by
  constructor
  · intro h fuel
    induction fuel with
    | zero => intro st now; rfl
    | succ fuel ih =>
      intro st now
      have hr : (canMakeRequest cfg cnt st now (spaces required)).1
          = false := by
        simp [canMakeRequest, not_le.mpr h]
      simp only [waitIfNeeded, hr, Bool.false_eq_true, if_false]
      exact ih _ _
  · intro fuel
    induction fuel with
    | zero => intro st now out h; simp [waitIfNeeded] at h
    | succ fuel ih =>
      intro st now out h
      simp only [waitIfNeeded] at h
      by_cases hr : (canMakeRequest cfg cnt st now (spaces required)).1 = true
      · rw [if_pos hr] at h
        cases h
        exact canMakeRequest_post cfg cnt st now (spaces required) hr
      · rw [if_neg hr] at h
        exact ih _ _ _ h

/-- Witness for C8: with the probe cost 4 strictly above the budget
`3 - 1000`, three loop iterations from the empty ledger fail to admit. -/
theorem c8_wait_if_needed_witness :
    waitIfNeeded (mkRateLimiter 10 3) String.length 4 3 ⟨[], 0⟩ 0 = none :=
  (c8_wait_if_needed (mkRateLimiter 10 3) String.length 4).1 (by decide)
    3 ⟨[], 0⟩ 0

/-- Claim C6, counterexample to the scenario clause: with
`tokens_per_minute = 100` and two `record_token_usage(60)` calls at
t = 0 and t = 2, at t = 61 the first record has aged past 60 seconds yet
`can_make_request` on a 50-token request still returns false (the second
60-token record leaves only 40 tokens available). -/
theorem c6_counterexample :
    (String.length (spaces 50) = 50) ∧
      ((0 : Int) < 61 - 60) ∧
      (canMakeRequest (mkRateLimiter 100 2000) String.length
        (recordTokenUsage (recordTokenUsage ⟨[], 0⟩ 0 60) 2 60) 61
        (spaces 50)).1 = false := by
  refine ⟨by decide, by decide, by decide⟩

/-- Claim C6, amended: `can_make_request(text)` is true iff
`count_tokens(text) <= max_tokens_per_request - reserved_tokens` and
`count_tokens(text) <= get_available_tokens()`; in the scenario with
`tokens_per_minute = 100` and two `record_token_usage(60)` calls at t = 0
and t = 2, a 50-token request is admitted exactly once BOTH records have
aged past 60 seconds, i.e. from t = 62 on (not already when the first
one has). -/
theorem c6_can_make_request :
    (∀ (cfg : RLConfig) (cnt : String → Nat) (st : RLState) (now : Int)
        (text : String),
      (canMakeRequest cfg cnt st now text).1 = true ↔
        ((cnt text : Int) ≤ budget cfg ∧
          (cnt text : Int) ≤ (getAvailableTokens cfg st now).1)) ∧
    (∀ now : Int,
      (canMakeRequest (mkRateLimiter 100 2000) String.length
          (recordTokenUsage (recordTokenUsage ⟨[], 0⟩ 0 60) 2 60) now
          (spaces 50)).1 = true ↔ 62 ≤ now) := by
  constructor
  · intro cfg cnt st now text
    by_cases hb : (cnt text : Int) ≤ budget cfg <;>
      simp [canMakeRequest, hb]
  · intro now
    by_cases h1 : (0 : Int) > now - 60 <;>
      by_cases h2 : (2 : Int) > now - 60 <;>
      simp [canMakeRequest, recordTokenUsage, getAvailableTokens, budget,
        mkRateLimiter, spaces_length, h1, h2, Int.max_def] <;>
      omega

/-- Claim C5: a reachable two-dispatch trace at the repository's limiter
configuration (`tokens_per_minute = 6000`, `max_tokens_per_request =
4000`) whose ledger holds 6400 tokens inside one 60-second window.
Admission probes only the chunk's own token count while `groq_analysis`
records chunk plus system-prompt tokens, so both dispatches are admitted
yet the recorded window usage exceeds the per-minute budget. -/
theorem c5_window_overflow :
    dispatchChunk (mkRateLimiter 6000 4000) String.length ⟨[], 0⟩ 0
        (spaces 3000) (spaces 500) = some ⟨[⟨0, 3500⟩], 0⟩ ∧
      dispatchChunk (mkRateLimiter 6000 4000) String.length
          ⟨[⟨0, 3500⟩], 0⟩ 1 (spaces 2400) (spaces 500)
        = some ⟨[⟨0, 3500⟩, ⟨1, 2900⟩], 1⟩ ∧
      ((mkRateLimiter 6000 4000).tokensPerMinute : Int)
        < windowSum ⟨[⟨0, 3500⟩, ⟨1, 2900⟩], 1⟩ 1 := by
  refine ⟨?_, ?_, ?_⟩ <;>
    simp [dispatchChunk, canMakeRequest, getAvailableTokens,
      recordTokenUsage, budget, mkRateLimiter, spaces_length, windowSum]

/-- Claim C3: on a 10-K section mapping whose contributing sections carry
only the sentinel `"not found"`, `analyze_10k` does NOT skip the group:
it emits the `FINANCIAL_METRICS ANALYSIS:` header and submits the chunk
`"not found not found not found."` to the completion service (and
likewise for `management_discussion`), because the skip test only checks
that `group_content` is a non-empty list. -/
theorem c3_sentinel_group_submitted :
    (analyze10k (mkRateLimiter 6000 4000) String.length (fun _ _ => "A")
        (fun _ => "P")
        [("Item 6.", ["not found"]), ("Item 7.", ["not found"]),
         ("Item 7A.", ["not found"])]).1
        = ["FINANCIAL_METRICS ANALYSIS:", "A", "",
           "MANAGEMENT_DISCUSSION ANALYSIS:", "A", ""] ∧
      (analyze10k (mkRateLimiter 6000 4000) String.length (fun _ _ => "A")
        (fun _ => "P")
        [("Item 6.", ["not found"]), ("Item 7.", ["not found"]),
         ("Item 7A.", ["not found"])]).2
        = ["not found not found not found.", "not found."] := by
  constructor <;> decide

theorem wordChunks_spec (B : Int) (cnt : String → Nat) :
    ∀ ws cur curTok, curTok = (cur.map cnt).sum →
      (cur = [] ∨ (((cur.map cnt).sum : Nat) : Int) ≤ B ∨
        ∃ w, cur = [w] ∧ (cnt w : Int) > B) →
      ∀ g ∈ wordChunks B cnt ws cur curTok,
        g ≠ [] ∧ ((((g.map cnt).sum : Nat) : Int) ≤ B ∨
          ∃ w, g = [w] ∧ (cnt w : Int) > B) := by
  intro ws
  induction ws with
  | nil =>
    intro cur curTok hsum hinv g hg
    simp only [wordChunks] at hg
    by_cases hc : cur = []
    · simp [hc] at hg
    · rw [if_neg hc] at hg
      rcases List.mem_singleton.mp hg with rfl
      refine ⟨hc, ?_⟩
      rcases hinv with h | h | h
      · exact absurd h hc
      · exact Or.inl h
      · exact Or.inr h
  | cons w ws ih =>
    intro cur curTok hsum hinv g hg
    simp only [wordChunks] at hg
    by_cases hover : ((curTok + cnt w : Nat) : Int) > B
    · rw [if_pos hover] at hg
      rcases List.mem_append.mp hg with hg | hg
      · by_cases hc : cur = []
        · simp [hc] at hg
        · rw [if_neg hc] at hg
          rcases List.mem_singleton.mp hg with rfl
          refine ⟨hc, ?_⟩
          rcases hinv with h | h | h
          · exact absurd h hc
          · exact Or.inl h
          · exact Or.inr h
      · refine ih [w] (cnt w) (by simp) ?_ g hg
        by_cases hw : (cnt w : Int) ≤ B
        · exact Or.inr (Or.inl (by simpa using hw))
        · exact Or.inr (Or.inr ⟨w, rfl, lt_of_not_le hw⟩)
    · rw [if_neg hover] at hg
      refine ih (cur ++ [w]) (curTok + cnt w) (by simp [hsum]) ?_ g hg
      refine Or.inr (Or.inl ?_)
      have : (((cur.map cnt).sum + cnt w : Nat) : Int) ≤ B := by
        rw [← hsum]
        exact not_lt.mp hover
      simpa using this

theorem sentenceLoop_spec (B : Int) (cnt : String → Nat) :
    ∀ ss cur curTok, curTok = (cur.map cnt).sum →
      (cur = [] ∨ (((cur.map cnt).sum : Nat) : Int) ≤ B) →
      ∀ c ∈ sentenceLoop B cnt ss cur curTok,
        ∃ parts, parts ≠ [] ∧
          ((c = pyJoin ". " parts ++ "." ∧
              (((parts.map cnt).sum : Nat) : Int) ≤ B) ∨
            (c = pyJoin " " parts ∧
              ((((parts.map cnt).sum : Nat) : Int) ≤ B ∨
                ∃ w, parts = [w] ∧ (cnt w : Int) > B))) := by
  intro ss
  induction ss with
  | nil =>
    intro cur curTok hsum hinv c hc
    simp only [sentenceLoop] at hc
    by_cases h : cur = []
    · simp [h] at hc
    · rw [if_neg h] at hc
      rcases List.mem_singleton.mp hc with rfl
      refine ⟨cur, h, Or.inl ⟨rfl, ?_⟩⟩
      rcases hinv with h2 | h2
      · exact absurd h2 h
      · exact h2
  | cons s ss ih =>
    intro cur curTok hsum hinv c hc
    simp only [sentenceLoop] at hc
    by_cases hbig : (cnt s : Int) > B
    · rw [if_pos hbig] at hc
      rcases List.mem_append.mp hc with hc | hc
      · rcases List.mem_map.mp hc with ⟨g, hg, rfl⟩
        have hgood := wordChunks_spec B cnt (pyWords s) [] 0 (by simp)
          (Or.inl rfl) g hg
        exact ⟨g, hgood.1, Or.inr ⟨rfl, hgood.2⟩⟩
      · exact ih cur curTok hsum hinv c hc
    · rw [if_neg hbig] at hc
      by_cases hover : ((curTok + cnt s : Nat) : Int) > B
      · rw [if_pos hover] at hc
        rcases List.mem_append.mp hc with hc | hc
        · by_cases h : cur = []
          · simp [h] at hc
          · rw [if_neg h] at hc
            rcases List.mem_singleton.mp hc with rfl
            refine ⟨cur, h, Or.inl ⟨rfl, ?_⟩⟩
            rcases hinv with h2 | h2
            · exact absurd h2 h
            · exact h2
        · refine ih [s] (cnt s) (by simp) ?_ c hc
          exact Or.inr (by simpa using not_lt.mp hbig)
      · rw [if_neg hover] at hc
        refine ih (cur ++ [s]) (curTok + cnt s) (by simp [hsum]) ?_ c hc
        refine Or.inr ?_
        have : (((cur.map cnt).sum + cnt s : Nat) : Int) ≤ B := by
          rw [← hsum]
          exact not_lt.mp hover
        simpa using this

/-- Claim C1, counterexample: at the limiter configuration of
`document_analyzer.py` (budget 3000) and a tokenizer counting 1500 tokens
per character, the input `"x. y"` produces the single chunk `"x. y."`
whose own token count (9000) exceeds the budget although it is not a
single word: the running accounting sums only the sentences' token
counts, ignoring the `'. '` join separators and the appended final
period. -/
theorem c1_counterexample :
    ¬ ∀ c ∈ splitTextIntoChunks (mkRateLimiter 6000 4000)
        (fun s => 1500 * s.length) "x. y",
      ((1500 * c.length : Nat) : Int) ≤ budget (mkRateLimiter 6000 4000) ∨
        (pyWords c = [c] ∧
          ((1500 * c.length : Nat) : Int)
            > budget (mkRateLimiter 6000 4000)) := by
  decide

/-- Claim C1, amended: every chunk is a non-empty list of parts joined
with the splitting separators (`'. '` plus a trailing `'.'` for sentence
chunks, `' '` for word chunks), and the SUM of the parts' own token
counts — the quantity the code actually tracks, which omits the join
separators' token cost — is at or below the budget
`max_tokens_per_request - reserved_tokens`, except for a word chunk that
is a single word whose own token count exceeds the budget (passed
through as-is).  The chunk's own total token count may exceed the budget
by the separators' contribution. -/
theorem c1_chunk_budget (cfg : RLConfig) (cnt : String → Nat)
    (text : String) (c : String)
    (hc : c ∈ splitTextIntoChunks cfg cnt text) :
    ∃ parts, parts ≠ [] ∧
      ((c = pyJoin ". " parts ++ "." ∧
          (((parts.map cnt).sum : Nat) : Int) ≤ budget cfg) ∨
        (c = pyJoin " " parts ∧
          ((((parts.map cnt).sum : Nat) : Int) ≤ budget cfg ∨
            ∃ w, parts = [w] ∧ (cnt w : Int) > budget cfg))) :=
  sentenceLoop_spec (budget cfg) cnt (pySplitStr ". " text) [] 0 (by simp)
    (Or.inl rfl) c hc

/-- Witness for the amended C1: the chunk `"x. y."` of the input
`"x. y"` under the per-character tokenizer. -/
theorem c1_chunk_budget_witness :
    ("x. y." ∈ splitTextIntoChunks (mkRateLimiter 6000 4000)
        (fun s => 1500 * s.length) "x. y") ∧
      ∃ parts, parts ≠ [] ∧
        (("x. y." = pyJoin ". " parts ++ "." ∧
            (((parts.map (fun s => 1500 * s.length)).sum : Nat) : Int)
              ≤ budget (mkRateLimiter 6000 4000)) ∨
          ("x. y." = pyJoin " " parts ∧
            ((((parts.map (fun s => 1500 * s.length)).sum : Nat) : Int)
                ≤ budget (mkRateLimiter 6000 4000) ∨
              ∃ w, parts = [w] ∧
                ((1500 * w.length : Nat) : Int)
                  > budget (mkRateLimiter 6000 4000)))) :=
  ⟨by decide,
   c1_chunk_budget (mkRateLimiter 6000 4000) (fun s => 1500 * s.length)
     "x. y" "x. y." (by decide)⟩

theorem pySplitSepAux_ne_nil (sep : List Char) :
    ∀ fuel l, pySplitSepAux sep fuel l ≠ [] := by
  intro fuel
  induction fuel with
  | zero => intro l; cases l <;> simp [pySplitSepAux]
  | succ fuel ih =>
    intro l
    cases l with
    | nil => simp [pySplitSepAux]
    | cons c cs =>
      simp only [pySplitSepAux]
      split
      · simp
      · split <;> simp

theorem pySplitStr_ne_nil (sep s : String) : pySplitStr sep s ≠ [] := by
  unfold pySplitStr
  intro h
  exact pySplitSepAux_ne_nil sep.data s.data.length s.data
    (List.map_eq_nil_iff.mp h)

theorem pyJoin_cons (sep x : String) (l : List String) (h : l ≠ []) :
    pyJoin sep (x :: l) = x ++ sep ++ pyJoin sep l := by
  cases l with
  | nil => exact absurd rfl h
  | cons y ys => rfl

theorem pyJoin_append (sep : String) (a b : List String) (ha : a ≠ [])
    (hb : b ≠ []) :
    pyJoin sep (a ++ b) = pyJoin sep a ++ sep ++ pyJoin sep b := by
  induction a with
  | nil => exact absurd rfl ha
  | cons x xs ih =>
    cases xs with
    | nil =>
      simp only [List.singleton_append]
      rw [pyJoin_cons sep x b hb]
      rfl
    | cons y ys =>
      have hxs : (y :: ys : List String) ≠ [] := by simp
      have hxsb : (y :: ys) ++ b ≠ [] := by simp
      rw [List.cons_append, pyJoin_cons sep x _ hxsb,
        pyJoin_cons sep x _ hxs, ih hxs]
      simp [String.append_assoc]

theorem str_shuffle (a b : String) :
    a ++ "." ++ " " ++ (b ++ ".") = a ++ ". " ++ b ++ "." := by
  have h : ("." : String) ++ " " = ". " := rfl
  calc a ++ "." ++ " " ++ (b ++ ".")
      = a ++ ("." ++ " ") ++ (b ++ ".") := by rw [String.append_assoc a]
    _ = a ++ ". " ++ (b ++ ".") := by rw [h]
    _ = a ++ ". " ++ b ++ "." := (String.append_assoc (a ++ ". ") b ".").symm

theorem sentenceLoop_ne_nil (B : Int) (cnt : String → Nat) :
    ∀ ss cur curTok, cur ≠ [] → sentenceLoop B cnt ss cur curTok ≠ [] := by
  intro ss
  induction ss with
  | nil =>
    intro cur curTok h
    simp [sentenceLoop, h]
  | cons s ss ih =>
    intro cur curTok h
    simp only [sentenceLoop]
    by_cases hbig : (cnt s : Int) > B
    · rw [if_pos hbig]
      have := ih cur curTok h
      intro hcontra
      rcases List.append_eq_nil.mp hcontra with ⟨_, h2⟩
      exact this h2
    · rw [if_neg hbig]
      by_cases hover : ((curTok + cnt s : Nat) : Int) > B
      · rw [if_pos hover]
        have := ih [s] (cnt s) (by simp)
        intro hcontra
        rcases List.append_eq_nil.mp hcontra with ⟨_, h2⟩
        exact this h2
      · rw [if_neg hover]
        exact ih (cur ++ [s]) (curTok + cnt s) (by simp)

theorem sentenceLoop_join (B : Int) (cnt : String → Nat) :
    ∀ ss cur curTok, (∀ s ∈ ss, (cnt s : Int) ≤ B) → cur ≠ [] →
      pyJoin " " (sentenceLoop B cnt ss cur curTok)
        = pyJoin ". " (cur ++ ss) ++ "." := by
  intro ss
  induction ss with
  | nil =>
    intro cur curTok _ h
    simp [sentenceLoop, h, pyJoin]
  | cons s ss ih =>
    intro cur curTok hall h
    have hs : (cnt s : Int) ≤ B := hall s (by simp)
    have hss : ∀ t ∈ ss, (cnt t : Int) ≤ B := fun t ht =>
      hall t (by simp [ht])
    simp only [sentenceLoop]
    rw [if_neg (not_lt.mpr hs)]
    by_cases hover : ((curTok + cnt s : Nat) : Int) > B
    · rw [if_pos hover]
      have hne : sentenceLoop B cnt ss [s] (cnt s) ≠ [] :=
        sentenceLoop_ne_nil B cnt ss [s] (cnt s) (by simp)
      rw [if_neg h, List.singleton_append,
        pyJoin_cons " " _ _ hne, ih [s] (cnt s) hss (by simp),
        pyJoin_append ". " cur (s :: ss) h (by simp)]
      simp only [List.singleton_append]
      exact str_shuffle _ _
    · rw [if_neg hover, ih (cur ++ [s]) (curTok + cnt s) hss (by simp)]
      simp

/-- Claim C2, counterexample: at budget 3000 with a tokenizer counting
1500 tokens per character, the input `"ab. xyz. cd"` contains the
oversized sentence `"xyz"`; its word chunks are appended to the output
before the pending sentence buffer holding `"ab"` is ever flushed, so the
chunks come out as `["xyz", "ab.", "cd."]` and the reconstructed word
sequence is reordered (and the final word gains a period). -/
theorem c2_counterexample :
    wordsOfText (pyJoin " " (splitTextIntoChunks (mkRateLimiter 6000 4000)
        (fun s => 1500 * s.length) "ab. xyz. cd"))
      ≠ wordsOfText "ab. xyz. cd" := by
  decide

/-- Claim C2, amended: when no sentence of the input exceeds the budget,
the chunks joined with `' '` reproduce the `'. '`-rejoined sentence
sequence of the original text with exactly one `'.'` appended — every
word preserved, in order, no word dropped or duplicated, only a trailing
period added.  (When some sentence does exceed the budget, its word-level
chunks are emitted ahead of the pending sentence buffer, so the word
order of the concatenation can differ from the original, as the
counterexample shows.) -/
theorem c2_reconstruction (cfg : RLConfig) (cnt : String → Nat)
    (text : String)
    (hall : ∀ s ∈ pySplitStr ". " text, (cnt s : Int) ≤ budget cfg) :
    pyJoin " " (splitTextIntoChunks cfg cnt text)
      = pyJoin ". " (pySplitStr ". " text) ++ "." := by
  unfold splitTextIntoChunks
  cases hsp : pySplitStr ". " text with
  | nil => exact absurd hsp (pySplitStr_ne_nil _ _)
  | cons s ss =>
    have hs : (cnt s : Int) ≤ budget cfg := by
      apply hall
      simp [hsp]
    have hss : ∀ t ∈ ss, (cnt t : Int) ≤ budget cfg := fun t ht => by
      apply hall
      simp [hsp, ht]
    simp only [sentenceLoop]
    rw [if_neg (not_lt.mpr hs)]
    have hover : ¬(((0 + cnt s : Nat) : Int) > budget cfg) := by
      simpa using not_lt.mpr hs
    rw [if_neg hover]
    simp only [List.nil_append, Nat.zero_add]
    rw [sentenceLoop_join (budget cfg) cnt ss [s] (cnt s) hss (by simp)]
    simp

/-- Witness for the amended C2: the two-sentence input `"x. y"`, both
sentences within budget, reconstructs to `"x. y."`. -/
theorem c2_reconstruction_witness :
    (∀ s ∈ pySplitStr ". " "x. y",
        ((String.length s : Nat) : Int) ≤ budget (mkRateLimiter 6000 4000)) ∧
      pyJoin " " (splitTextIntoChunks (mkRateLimiter 6000 4000)
          String.length "x. y")
        = pyJoin ". " (pySplitStr ". " "x. y") ++ "." :=
  ⟨by decide,
   c2_reconstruction (mkRateLimiter 6000 4000) String.length "x. y"
     (by decide)⟩

theorem pyDedupAux_of_nodup :
    ∀ (l seen : List String), l.Nodup → (∀ x ∈ l, x ∉ seen) →
      pyDedupAux l seen = l := by
  intro l
  induction l with
  | nil => intro seen _ _; rfl
  | cons x xs ih =>
    intro seen hnd hdis
    simp only [pyDedupAux]
    rw [if_neg (hdis x (by simp))]
    congr 1
    apply ih
    · exact (List.nodup_cons.mp hnd).2
    · intro y hy hmem
      rcases List.mem_append.mp hmem with h | h
      · exact hdis y (by simp [hy]) h
      · rw [List.mem_singleton.mp h] at hy
        exact (List.nodup_cons.mp hnd).1 hy

theorem pyDedup_of_nodup (l : List String) (h : l.Nodup) : pyDedup l = l :=
  pyDedupAux_of_nodup l [] h (by simp)

theorem walk_unhit (labels : List String) (sec : String) :
    ∀ (nodes : List SeNode) (cur : String) (buffer : List String)
      (store : String → String),
      (∀ n ∈ nodes,
        ¬(n.parentIsTag = true ∧ firstHit labels n.text = some sec)) →
      store sec = "" → (cur ≠ "" → cur ≠ sec) →
      walk labels nodes cur buffer store sec = "" := by
  intro nodes
  induction nodes with
  | nil =>
    intro cur buffer store _ hstore hcur
    simp only [walk]
    split
    · next hcond =>
      have hne : ¬(sec = cur) := fun h => hcur hcond.1 h.symm
      simp [hne, hstore]
    · exact hstore
  | cons n ns ih =>
    intro cur buffer store hnodes hstore hcur
    have hns : ∀ m ∈ ns,
        ¬(m.parentIsTag = true ∧ firstHit labels m.text = some sec) :=
      fun m hm => hnodes m (by simp [hm])
    simp only [walk]
    by_cases hp : n.parentIsTag = true
    · rw [if_pos hp]
      cases hhit : firstHit labels n.text with
      | some hit =>
        have hne : hit ≠ sec := by
          intro h
          exact hnodes n (by simp) ⟨hp, by rw [hhit, h]⟩
        apply ih _ _ _ hns _ (fun _ => hne)
        by_cases hcc : cur ≠ ""
        · rw [if_pos hcc]
          have : ¬(sec = cur) := fun h => hcur hcc h.symm
          simp [this, hstore]
        · rw [if_neg hcc]
          exact hstore
      | none =>
        dsimp only
        by_cases hcc : cur ≠ ""
        · rw [if_pos hcc]
          exact ih _ _ _ hns hstore hcur
        · rw [if_neg hcc]
          exact ih _ _ _ hns hstore hcur
    · rw [if_neg hp]
      exact ih _ _ _ hns hstore hcur

/-- Claim C4: for every duplicate-free label configuration `L` and every
node stream, the section extractor's output has key list exactly `L` in
declared order, and every label never matched by any node maps to the
single-element sequence `["not found"]` (never an empty string). -/
theorem c4_coverage (enc : String → List Nat) (dec : List Nat → String)
    (nodes : List SeNode) (L : List String) (hnd : L.Nodup) :
    (parseSecDocument enc dec nodes L).map Prod.fst = L ∧
      ∀ sec ∈ L,
        (∀ n ∈ nodes,
          ¬(n.parentIsTag = true ∧ firstHit L n.text = some sec)) →
        (sec, ["not found"]) ∈ parseSecDocument enc dec nodes L := by
  constructor
  · simp only [parseSecDocument, List.map_map]
    rw [pyDedup_of_nodup L hnd]
    exact List.map_id L
  · intro sec hsec hunhit
    have hstore : walk L nodes "" [] (fun _ => "") sec = "" :=
      walk_unhit L sec nodes "" [] (fun _ => "") hunhit rfl
        (fun h => absurd rfl h)
    simp only [parseSecDocument]
    have hmem : sec ∈ pyDedup L := by
      rw [pyDedup_of_nodup L hnd]
      exact hsec
    have hfs : (fun s => ((s : String),
        if walk L nodes "" [] (fun _ => "") s = "" then ["not found"]
        else splitIntoTokenChunks enc dec
          (walk L nodes "" [] (fun _ => "") s) 1000)) sec
        = (sec, ["not found"]) := by
      simp [hstore]
    exact hfs ▸ List.mem_map_of_mem _ hmem

/-- Witness for C4: labels `["Item 1.", "Item 9."]` over a two-node
stream in which only `"Item 1."` appears: the keys come out in declared
order and `"Item 9."` maps to `["not found"]`. -/
theorem c4_coverage_witness :
    (parseSecDocument (fun s => s.data.map Char.toNat)
        (fun l => String.mk (l.map Char.ofNat))
        [⟨true, "Item 1. Business", []⟩, ⟨true, "Alpha text", []⟩]
        ["Item 1.", "Item 9."]).map Prod.fst = ["Item 1.", "Item 9."] ∧
      ("Item 9.", ["not found"]) ∈ parseSecDocument
        (fun s => s.data.map Char.toNat)
        (fun l => String.mk (l.map Char.ofNat))
        [⟨true, "Item 1. Business", []⟩, ⟨true, "Alpha text", []⟩]
        ["Item 1.", "Item 9."] :=
  ⟨(c4_coverage (fun s => s.data.map Char.toNat)
      (fun l => String.mk (l.map Char.ofNat))
      [⟨true, "Item 1. Business", []⟩, ⟨true, "Alpha text", []⟩]
      ["Item 1.", "Item 9."] (by decide)).1,
   (c4_coverage (fun s => s.data.map Char.toNat)
      (fun l => String.mk (l.map Char.ofNat))
      [⟨true, "Item 1. Business", []⟩, ⟨true, "Alpha text", []⟩]
      ["Item 1.", "Item 9."] (by decide)).2 "Item 9." (by decide) (by decide)⟩

end SecAI
